import Mathlib

/-!
Verification development for the omniverse-swap protocol core.

The definitions below are a shallow embedding of the Rust sources:
* `pallets/omni-protocol/src/functions.rs` (transaction hashing and the
  `OmniverseAccounts` implementation: `verify_transaction`,
  `get_transaction_count`, `is_malicious`, `get_transaction_data`,
  `get_cooling_down_time`),
* `pallets/omni-protocol/src/types.rs` (the data model),
* `pallets/uniques/src/lib.rs` (`trigger_execution`) and
  `pallets/uniques/src/functions.rs` (the verification-retry fragment of
  `handle_transaction`).

Machine integers are modelled as `Nat`; the only place where overflow can
matter (the `nonce + 1` counter bump on a `u128`) carries an explicit
`% 2 ^ 128`.  Substrate storage maps become total functions updated with
`fupdate`; maps whose `get` yields `Option` in Rust are `Option`-valued.
Rust panics (`unwrap`) are modelled by an `Option` result: `none` marks the
panic.  The external Keccak-256 hasher and the secp256k1 recovery primitive
are parameters of the embedding (`keccak`, `recover`); wall-clock time is an
explicit `now` argument.
-/

namespace OmniverseSwap

/-- Bytes are natural numbers; a Rust byte string is a list of them. -/
abbrev Bytes := List Nat

/-- Pointwise function update; models `StorageMap::insert` on a keyed map. -/
def fupdate {α β : Type} [DecidableEq α] (f : α → β) (a : α) (b : β) : α → β :=
  fun x => if x = a then b else f x

/-- `toBE k n`: the `k`-byte big-endian encoding of `n` (high bits beyond
`k` bytes are discarded, as in `uN::to_be_bytes`). -/
def toBE : Nat → Nat → Bytes
  | 0, _ => []
  | k + 1, n => toBE k (n / 256) ++ [n % 256]

/-- Little-endian value of a byte list (SCALE fixed-width integers). -/
def fromLE (bs : Bytes) : Nat :=
  bs.foldr (fun b acc => b + 256 * acc) 0

/-- SCALE `Compact<u32>` decoding (parity-scale-codec), used for the length
prefix of `Vec<u8>`.  Returns the value and the remaining input; `none` on
malformed or non-canonical input. -/
def decodeCompactLen : Bytes → Option (Nat × Bytes)
  | [] => none
  | b :: rest =>
    match b % 4 with
    | 0 => some (b / 4, rest)
    | 1 =>
      match rest with
      | b1 :: rest1 =>
        let x := (b + 256 * b1) / 4
        if 63 < x ∧ x ≤ 16383 then some (x, rest1) else none
      | [] => none
    | 2 =>
      match rest with
      | b1 :: b2 :: b3 :: rest3 =>
        let x := (b + 256 * b1 + 65536 * b2 + 16777216 * b3) / 4
        if 16383 < x ∧ x ≤ 1073741823 then some (x, rest3) else none
      | _ => none
    | _ =>
      if b / 4 = 0 then
        match rest with
        | b0 :: b1 :: b2 :: b3 :: rest4 =>
          let x := b0 + 256 * b1 + 65536 * b2 + 16777216 * b3
          if 1073741823 < x then some (x, rest4) else none
        | _ => none
      else none

/-- SCALE decoding of a `Vec<u8>`: compact length prefix, then that many
raw bytes.  Returns the vector and the remaining input. -/
def decodeVecU8 (bs : Bytes) : Option (Bytes × Bytes) :=
  match decodeCompactLen bs with
  | none => none
  | some (len, rest) =>
    if len ≤ rest.length then some (rest.take len, rest.drop len) else none

/-- SCALE decoding of a `u128`: 16 bytes, little-endian. -/
def decodeU128 (bs : Bytes) : Option (Nat × Bytes) :=
  if 16 ≤ bs.length then some (fromLE (bs.take 16), bs.drop 16) else none

/-- `Fungible` from `types.rs`: `{ op: u8, ex_data: Vec<u8>, amount: u128 }`.
(`Assets` has the same SCALE layout with `quantity` in place of `amount`.) -/
structure Fungible where
  op : Nat
  ex_data : Bytes
  amount : Nat
deriving DecidableEq, Repr

/-- SCALE decoding of `Fungible` (derived `Decode`): a `u8`, a `Vec<u8>`,
then a `u128`; trailing bytes are permitted, as in parity-scale-codec's
`Decode::decode` on a mutable slice. -/
def fungibleDecode (bs : Bytes) : Option Fungible :=
  match bs with
  | [] => none
  | b :: rest =>
    match decodeVecU8 rest with
    | none => none
    | some (ex, rest1) =>
      match decodeU128 rest1 with
      | none => none
      | some (amt, _) => some ⟨b, ex, amt⟩

/-- `OmniverseTransactionData` from `types.rs`.  The Rust field `from`
(a Lean keyword) is rendered `fromPk`. -/
structure OmniverseTransactionData where
  nonce : Nat
  chain_id : Nat
  initiator_address : Bytes
  fromPk : Bytes
  payload : Bytes
  signature : Bytes
deriving DecidableEq, Repr

/-- `OmniverseTx` from `types.rs`: the stored transaction record, holding
the transaction data and the verifier's wall-clock timestamp (seconds).
These are its only fields. -/
structure OmniverseTx where
  tx_data : OmniverseTransactionData
  timestamp : Nat
deriving DecidableEq, Repr

/-- `EvilTxData` from `types.rs`: an equivocation proof. -/
structure EvilTxData where
  tx_omni : OmniverseTx
  his_nonce : Nat
deriving DecidableEq, Repr

/-- `VerifyResult` from `types.rs`. -/
inductive VerifyResult
  | Success
  | Malicious
  | Duplicated
deriving DecidableEq, Repr

/-- `VerifyError` from `types.rs`. -/
inductive VerifyError
  | SignatureError
  | NonceError
  | SignerNotCaller
deriving DecidableEq, Repr

/-- The `"\x19Ethereum Signed Message:\n"` prefix from `functions.rs`. -/
def ETHEREUM_PREFIX : Bytes :=
  "\x19Ethereum Signed Message:\n".data.map Char.toNat

/-- The decimal ASCII rendering of a number (`usize::to_string`). -/
def decimalAscii (n : Nat) : Bytes :=
  (Nat.toDigits 10 n).map Char.toNat

/-- `get_transaction_hash` from `functions.rs`.  `keccak` is the external
Keccak-256 hasher (a parameter of the embedding).  The Rust code `unwrap`s
the SCALE decoding of the payload as `Fungible`; a decoding failure panics,
modelled here by `none`. -/
def get_transaction_hash (keccak : Bytes → Bytes) (data : OmniverseTransactionData)
    (with_ethereum : Bool) : Option Bytes :=
  match fungibleDecode data.payload with
  | none => none
  | some fungible =>
    let raw := toBE 16 data.nonce ++ toBE 4 data.chain_id
      ++ data.initiator_address ++ data.fromPk
    let bytes_data := [fungible.op] ++ fungible.ex_data ++ toBE 16 fungible.amount
    let raw := raw ++ bytes_data
    if with_ethereum then
      some (keccak (ETHEREUM_PREFIX ++ decimalAscii raw.length ++ raw))
    else
      some (keccak raw)

/-- Key of the `TransactionCount` storage map: `(from, pallet_name, token_id)`. -/
abbrev CountKey := Bytes × Bytes × Bytes

/-- Key of the `TransactionRecorder` storage map:
`(from, pallet_name, token_id, nonce)`. -/
abbrev RecordKey := Bytes × Bytes × Bytes × Nat

/-- The storage of the omniverse-protocol pallet.  `transactionCount` is a
`ValueQuery` map (unseen keys read 0); the other two are `OptionQuery`. -/
structure OmniState where
  transactionCount : CountKey → Nat
  transactionRecorder : RecordKey → Option OmniverseTx
  evilRecorder : Bytes → Option (List EvilTxData)

/-- The genesis storage: no counters, no records, no evil list. -/
def initialOmniState : OmniState :=
  { transactionCount := fun _ => 0
    transactionRecorder := fun _ => none
    evilRecorder := fun _ => none }

/-- `verify_transaction` from `functions.rs`.  `recover` models
`sp_io::crypto::secp256k1_ecdsa_recover` (signature and message hash to
recovered public key; `none` on failure), `now` models
`T::Timestamp::now().as_secs()`.  The result is the classification (or
error) paired with the post-state; `none` models the panic of the
`unwrap` on the historical-record lookup or of a hash-time payload-decode
failure. -/
def verify_transaction (keccak : Bytes → Bytes) (recover : Bytes → Bytes → Option Bytes)
    (now : Nat) (st : OmniState) (pallet_name token_id : Bytes)
    (data : OmniverseTransactionData) (with_ethereum : Bool) :
    Option (Except VerifyError VerifyResult × OmniState) :=
  let nonce := st.transactionCount (data.fromPk, pallet_name, token_id)
  match get_transaction_hash keccak data with_ethereum with
  | none => none
  | some tx_hash_bytes =>
    match recover data.signature tx_hash_bytes with
    | none => some (.error .SignatureError, st)
    | some recoverd_pk =>
      if recoverd_pk ≠ data.fromPk then
        some (.error .SignerNotCaller, st)
      else if nonce = data.nonce then
        let omni_tx : OmniverseTx := ⟨data, now⟩
        some (.ok .Success,
          { st with
            transactionRecorder :=
              fupdate st.transactionRecorder (data.fromPk, pallet_name, token_id, nonce)
                (some omni_tx)
            transactionCount :=
              fupdate st.transactionCount (data.fromPk, pallet_name, token_id)
                ((nonce + 1) % 2 ^ 128) })
      else if nonce > data.nonce then
        match st.transactionRecorder (data.fromPk, pallet_name, token_id, data.nonce) with
        | none => none
        | some his_tx =>
          match get_transaction_hash keccak his_tx.tx_data with_ethereum with
          | none => none
          | some his_tx_hash =>
            if his_tx_hash ≠ tx_hash_bytes then
              let omni_tx : OmniverseTx := ⟨data, now⟩
              let evil_tx : EvilTxData := ⟨omni_tx, nonce⟩
              let er := (st.evilRecorder data.fromPk).getD []
              some (.ok .Malicious,
                { st with
                  evilRecorder :=
                    fupdate st.evilRecorder data.fromPk (some (er ++ [evil_tx])) })
            else
              some (.ok .Duplicated, st)
      else
        some (.error .NonceError, st)

/-- `get_transaction_count` from `functions.rs`. -/
def get_transaction_count (st : OmniState) (pk pallet_name token_id : Bytes) : Nat :=
  st.transactionCount (pk, pallet_name, token_id)

/-- `is_malicious` from `functions.rs`. -/
def is_malicious (st : OmniState) (pk : Bytes) : Bool :=
  match st.evilRecorder pk with
  | some r => decide (0 < r.length)
  | none => false

/-- `get_transaction_data` from `functions.rs`. -/
def get_transaction_data (st : OmniState) (pk pallet_name token_id : Bytes)
    (nonce : Nat) : Option OmniverseTx :=
  st.transactionRecorder (pk, pallet_name, token_id, nonce)

/-- `get_cooling_down_time` from `functions.rs`: the constant 10 seconds. -/
def get_cooling_down_time : Nat := 10

/-- `PALLET_NAME` of the uniques pallet (`lib.rs`): the bytes of `"uniques"`. -/
def PALLET_NAME : Bytes := [0x75, 0x6e, 0x69, 0x71, 0x75, 0x65, 0x73]

/-- `DelayedTx` of the uniques pallet. -/
structure DelayedTx where
  sender : Bytes
  token_id : Bytes
  nonce : Nat
deriving DecidableEq, Repr

/-- The errors `trigger_execution` can raise; `ExecuteFailed` stands for an
error propagated from `execute_transaction` (the Settlement Handler). -/
inductive TriggerError
  | NoDelayedTx
  | DelayedTxNotExisted
  | TxNotExisted
  | NotExecutable
  | ExecuteFailed
deriving DecidableEq, Repr

/-- The queue-side storage of the uniques pallet together with the protocol
storage it reads through `T::OmniverseProtocol`.  `delayedIndex` is the
`(executing, tail)` cursor pair; `handlerLog` is ghost instrumentation that
records, in order, every invocation of the Settlement Handler
(`execute_transaction`) as `(queue index, token_id, transaction data)` —
the Rust code holds no such log, it is added solely to make handler
invocations observable in theorems. -/
structure UniquesState where
  protocol : OmniState
  delayedIndex : Nat × Nat
  delayedTransactions : Nat → Option DelayedTx
  handlerLog : List (Nat × Bytes × OmniverseTransactionData)

/-- `trigger_execution` from `pallets/uniques/src/lib.rs`.  `handler`
models `execute_transaction` (`true` = `Ok`, `false` = a domain error);
`now` models `T::Timestamp::now().as_secs()`.  Storage writes take effect
at the program point where the Rust code performs them, so the
`DelayedIndex` advance at line 1786 precedes the handler call at line 1788
and survives a handler error. -/
def trigger_execution (handler : Bytes → OmniverseTransactionData → Bool)
    (now : Nat) (st : UniquesState) : Except TriggerError Unit × UniquesState :=
  let delayed_executing_index := st.delayedIndex.1
  let delayed_index := st.delayedIndex.2
  if delayed_executing_index < delayed_index then
    match st.delayedTransactions delayed_executing_index with
    | none => (.error .DelayedTxNotExisted, st)
    | some delayed_tx =>
      match get_transaction_data st.protocol delayed_tx.sender PALLET_NAME
          delayed_tx.token_id delayed_tx.nonce with
      | none => (.error .TxNotExisted, st)
      | some omni_tx =>
        if now > omni_tx.timestamp + get_cooling_down_time then
          let st1 := { st with delayedIndex := (delayed_executing_index + 1, delayed_index) }
          let st2 := { st1 with
            handlerLog := st1.handlerLog
              ++ [(delayed_executing_index, delayed_tx.token_id, omni_tx.tx_data)] }
          if handler delayed_tx.token_id omni_tx.tx_data then
            (.ok (), st2)
          else
            (.error .ExecuteFailed, st2)
        else
          (.error .NotExecutable, st)
  else
    (.error .NoDelayedTx, st)

/-- Iterated queue drains: one `trigger_execution` per listed time. -/
def trigger_many (handler : Bytes → OmniverseTransactionData → Bool) :
    List Nat → UniquesState → UniquesState
  | [], st => st
  | t :: ts, st => trigger_many handler ts (trigger_execution handler t st).2

/-- The verification-retry fragment of `handle_transaction`
(`pallets/uniques/src/functions.rs`, lines 385-399): verify with the raw
encoding first and, exactly when that returns `Err`, verify again with the
wallet-prefixed encoding, surfacing the second result. -/
def handle_transaction_verify (keccak : Bytes → Bytes)
    (recover : Bytes → Bytes → Option Bytes) (now : Nat) (st : OmniState)
    (pallet_name token_id : Bytes) (data : OmniverseTransactionData) :
    Option (Except VerifyError VerifyResult × OmniState) :=
  match verify_transaction keccak recover now st pallet_name token_id data false with
  | none => none
  | some (ret, st1) =>
    match ret with
    | .error _ => verify_transaction keccak recover now st1 pallet_name token_id data true
    | _ => some (ret, st1)

/-- Sequential submission: `submitSeq … txs n st` submits `txs 0`, …,
`txs (n-1)` in order through `verify_transaction` (raw encoding), keeping
only runs in which every submission is classified `Success`; any other
classification, error, or panic yields `none`. -/
def submitSeq (keccak : Bytes → Bytes) (recover : Bytes → Bytes → Option Bytes)
    (now : Nat) (pallet_name token_id : Bytes)
    (txs : Nat → OmniverseTransactionData) : Nat → OmniState → Option OmniState
  | 0, st => some st
  | n + 1, st =>
    match submitSeq keccak recover now pallet_name token_id txs n st with
    | none => none
    | some st1 =>
      match verify_transaction keccak recover now st1 pallet_name token_id (txs n) false with
      | some (.ok .Success, st2) => some st2
      | _ => none

/-- The committed-nonce invariant: every nonce strictly below an actor's
counter has a stored transaction record. -/
def NonceInv (st : OmniState) : Prop :=
  ∀ pk pallet_name token_id n,
    n < st.transactionCount (pk, pallet_name, token_id) →
    (st.transactionRecorder (pk, pallet_name, token_id, n)).isSome

/-- Handler-log sanity for the delayed-execution queue: logged queue
indices are strictly increasing and all below the executing cursor. -/
def QueueInv (st : UniquesState) : Prop :=
  st.handlerLog.Pairwise (fun a b => a.1 < b.1) ∧
  ∀ e ∈ st.handlerLog, e.1 < st.delayedIndex.1

/-! ### Concrete fixtures used by witness theorems -/

/-- A decodable payload: `op = 0`, empty `ex_data`, `amount = 0`. -/
def wPayload : Bytes := 0 :: 0 :: List.replicate 16 0

/-- A concrete transaction with nonce 0 over `wPayload`. -/
def wTx : OmniverseTransactionData := ⟨0, 0, [], [], wPayload, [0]⟩

/-- A concrete transaction with nonce 0 and a different (valid) payload:
`amount = 1` instead of `0`. -/
def wTx' : OmniverseTransactionData :=
  ⟨0, 0, [], [], 0 :: 0 :: (List.replicate 15 0 ++ [1]), [0]⟩

/-- A degenerate stand-in for Keccak-256 used in witnesses: identity. -/
def keccakId : Bytes → Bytes := fun l => l

/-- A concrete protocol state: the actor `[]` has counter 1 in namespace
`([], [])` and `wTx` committed at nonce 0. -/
def wState : OmniState :=
  { transactionCount := fupdate (fun _ => 0) ([], [], []) 1
    transactionRecorder := fupdate (fun _ => none) ([], [], [], 0) (some ⟨wTx, 3⟩)
    evilRecorder := fun _ => none }

/-- A recovery oracle that always recovers the empty key. -/
def recoverNil : Bytes → Bytes → Option Bytes := fun _ _ => some []

/-- A recovery oracle that fails on the raw digest of `wTx` (37 zero
bytes under `keccakId`) and recovers the empty key on anything else. -/
def recoverRejectRaw : Bytes → Bytes → Option Bytes :=
  fun _ h => if h = List.replicate 37 0 then none else some []

/-- A concrete uniques-pallet state: one pending `DelayedTx` at index 0
pointing to `wTx`, committed at time 3 under the `uniques` namespace. -/
def wUState : UniquesState :=
  { protocol :=
      { transactionCount := fupdate (fun _ => 0) ([], PALLET_NAME, []) 1
        transactionRecorder := fupdate (fun _ => none) ([], PALLET_NAME, [], 0)
          (some ⟨wTx, 3⟩)
        evilRecorder := fun _ => none }
    delayedIndex := (0, 1)
    delayedTransactions := fupdate (fun _ => none) 0 (some ⟨[], [], 0⟩)
    handlerLog := [] }

/-! ### Helper lemmas -/

@[simp] theorem fupdate_same {α β : Type} [DecidableEq α] (f : α → β) (a : α) (b : β) :
    fupdate f a b a = b := by
  simp [fupdate]

@[simp] theorem fupdate_other {α β : Type} [DecidableEq α] (f : α → β) (a x : α) (b : β)
    (h : x ≠ a) : fupdate f a b x = f x := by
  simp [fupdate, h]

theorem toBE_length (k n : Nat) : (toBE k n).length = k := by
  induction k generalizing n with
  | zero => rfl
  | succ k ih => simp [toBE, ih]

section VerifyHelpers

variable (keccak : Bytes → Bytes) (recover : Bytes → Bytes → Option Bytes)
  (now : Nat) (st : OmniState) (pallet_name token_id : Bytes)
  (data : OmniverseTransactionData) (with_ethereum : Bool) (txh : Bytes)

theorem verify_eq_sigErr
    (hh : get_transaction_hash keccak data with_ethereum = some txh)
    (hrec : recover data.signature txh = none) :
    verify_transaction keccak recover now st pallet_name token_id data with_ethereum
      = some (.error .SignatureError, st) := by
  simp [verify_transaction, hh, hrec]

theorem verify_eq_notCaller {pk : Bytes}
    (hh : get_transaction_hash keccak data with_ethereum = some txh)
    (hrec : recover data.signature txh = some pk) (hne : pk ≠ data.fromPk) :
    verify_transaction keccak recover now st pallet_name token_id data with_ethereum
      = some (.error .SignerNotCaller, st) := by
  simp [verify_transaction, hh, hrec, hne]

theorem verify_eq_success
    (hh : get_transaction_hash keccak data with_ethereum = some txh)
    (hrec : recover data.signature txh = some data.fromPk)
    (hn : st.transactionCount (data.fromPk, pallet_name, token_id) = data.nonce) :
    verify_transaction keccak recover now st pallet_name token_id data with_ethereum
      = some (.ok .Success,
        { st with
          transactionRecorder :=
            fupdate st.transactionRecorder (data.fromPk, pallet_name, token_id, data.nonce)
              (some ⟨data, now⟩)
          transactionCount :=
            fupdate st.transactionCount (data.fromPk, pallet_name, token_id)
              ((data.nonce + 1) % 2 ^ 128) }) := by
  simp [verify_transaction, hh, hrec, hn]

theorem verify_eq_nonceErr
    (hh : get_transaction_hash keccak data with_ethereum = some txh)
    (hrec : recover data.signature txh = some data.fromPk)
    (hlt : st.transactionCount (data.fromPk, pallet_name, token_id) < data.nonce) :
    verify_transaction keccak recover now st pallet_name token_id data with_ethereum
      = some (.error .NonceError, st) := by
  have hne : st.transactionCount (data.fromPk, pallet_name, token_id) ≠ data.nonce :=
    Nat.ne_of_lt hlt
  have hng : ¬ st.transactionCount (data.fromPk, pallet_name, token_id) > data.nonce :=
    Nat.lt_asymm hlt
  simp [verify_transaction, hh, hrec, hne, hng]

theorem verify_eq_dup {his_tx : OmniverseTx}
    (hh : get_transaction_hash keccak data with_ethereum = some txh)
    (hrec : recover data.signature txh = some data.fromPk)
    (hgt : data.nonce < st.transactionCount (data.fromPk, pallet_name, token_id))
    (hrecd : st.transactionRecorder (data.fromPk, pallet_name, token_id, data.nonce)
      = some his_tx)
    (hhish : get_transaction_hash keccak his_tx.tx_data with_ethereum = some txh) :
    verify_transaction keccak recover now st pallet_name token_id data with_ethereum
      = some (.ok .Duplicated, st) := by
  have hne : st.transactionCount (data.fromPk, pallet_name, token_id) ≠ data.nonce :=
    Nat.ne_of_gt hgt
  simp [verify_transaction, hh, hrec, hne, hgt, hrecd, hhish]

theorem verify_eq_malicious {his_tx : OmniverseTx} {hish : Bytes}
    (hh : get_transaction_hash keccak data with_ethereum = some txh)
    (hrec : recover data.signature txh = some data.fromPk)
    (hgt : data.nonce < st.transactionCount (data.fromPk, pallet_name, token_id))
    (hrecd : st.transactionRecorder (data.fromPk, pallet_name, token_id, data.nonce)
      = some his_tx)
    (hhish : get_transaction_hash keccak his_tx.tx_data with_ethereum = some hish)
    (hneq : hish ≠ txh) :
    verify_transaction keccak recover now st pallet_name token_id data with_ethereum
      = some (.ok .Malicious,
        { st with
          evilRecorder :=
            fupdate st.evilRecorder data.fromPk
              (some ((st.evilRecorder data.fromPk).getD []
                ++ [⟨⟨data, now⟩,
                     st.transactionCount (data.fromPk, pallet_name, token_id)⟩])) }) := by
  have hne : st.transactionCount (data.fromPk, pallet_name, token_id) ≠ data.nonce :=
    Nat.ne_of_gt hgt
  simp [verify_transaction, hh, hrec, hne, hgt, hrecd, hhish, hneq]

theorem verify_eq_none_lookup
    (hh : get_transaction_hash keccak data with_ethereum = some txh)
    (hrec : recover data.signature txh = some data.fromPk)
    (hgt : data.nonce < st.transactionCount (data.fromPk, pallet_name, token_id))
    (hrecd : st.transactionRecorder (data.fromPk, pallet_name, token_id, data.nonce)
      = none) :
    verify_transaction keccak recover now st pallet_name token_id data with_ethereum
      = none := by
  have hne : st.transactionCount (data.fromPk, pallet_name, token_id) ≠ data.nonce :=
    Nat.ne_of_gt hgt
  simp [verify_transaction, hh, hrec, hne, hgt, hrecd]

theorem verify_eq_none_hisHash {his_tx : OmniverseTx}
    (hh : get_transaction_hash keccak data with_ethereum = some txh)
    (hrec : recover data.signature txh = some data.fromPk)
    (hgt : data.nonce < st.transactionCount (data.fromPk, pallet_name, token_id))
    (hrecd : st.transactionRecorder (data.fromPk, pallet_name, token_id, data.nonce)
      = some his_tx)
    (hhish : get_transaction_hash keccak his_tx.tx_data with_ethereum = none) :
    verify_transaction keccak recover now st pallet_name token_id data with_ethereum
      = none := by
  have hne : st.transactionCount (data.fromPk, pallet_name, token_id) ≠ data.nonce :=
    Nat.ne_of_gt hgt
  simp [verify_transaction, hh, hrec, hne, hgt, hrecd, hhish]

theorem verify_error_characterization
    (hh : get_transaction_hash keccak data with_ethereum = some txh) :
    ∀ e st', verify_transaction keccak recover now st pallet_name token_id data with_ethereum
        = some (.error e, st') →
      st' = st ∧
      ((e = .SignatureError ∧ recover data.signature txh = none) ∨
       (∃ pk, e = .SignerNotCaller ∧ recover data.signature txh = some pk ∧ pk ≠ data.fromPk) ∨
       (e = .NonceError ∧ recover data.signature txh = some data.fromPk ∧
         st.transactionCount (data.fromPk, pallet_name, token_id) < data.nonce)) := by
  intro e st' hv
  cases hrec : recover data.signature txh with
  | none =>
    rw [verify_eq_sigErr keccak recover now st pallet_name token_id data with_ethereum txh
      hh hrec] at hv
    simp only [Option.some_inj, Prod.mk.injEq] at hv
    obtain ⟨he, hst⟩ := hv
    cases he
    exact ⟨hst.symm, Or.inl ⟨rfl, rfl⟩⟩
  | some pk =>
    by_cases hpk : pk = data.fromPk
    · subst hpk
      rcases Nat.lt_trichotomy data.nonce
          (st.transactionCount (data.fromPk, pallet_name, token_id)) with hgt | heq | hlt
      · cases hrecd : st.transactionRecorder
            (data.fromPk, pallet_name, token_id, data.nonce) with
        | none =>
          rw [verify_eq_none_lookup keccak recover now st pallet_name token_id data
            with_ethereum txh hh hrec hgt hrecd] at hv
          cases hv
        | some his_tx =>
          cases hhish : get_transaction_hash keccak his_tx.tx_data with_ethereum with
          | none =>
            rw [verify_eq_none_hisHash keccak recover now st pallet_name token_id data
              with_ethereum txh hh hrec hgt hrecd hhish] at hv
            cases hv
          | some hish =>
            by_cases hne : hish = txh
            · subst hne
              rw [verify_eq_dup keccak recover now st pallet_name token_id data
                with_ethereum hish hh hrec hgt hrecd hhish] at hv
              simp only [Option.some_inj, Prod.mk.injEq] at hv
              exact absurd hv.1 (by simp)
            · rw [verify_eq_malicious keccak recover now st pallet_name token_id data
                with_ethereum txh hh hrec hgt hrecd hhish hne] at hv
              simp only [Option.some_inj, Prod.mk.injEq] at hv
              exact absurd hv.1 (by simp)
      · rw [verify_eq_success keccak recover now st pallet_name token_id data
          with_ethereum txh hh hrec heq.symm] at hv
        simp only [Option.some_inj, Prod.mk.injEq] at hv
        exact absurd hv.1 (by simp)
      · rw [verify_eq_nonceErr keccak recover now st pallet_name token_id data
          with_ethereum txh hh hrec hlt] at hv
        simp only [Option.some_inj, Prod.mk.injEq] at hv
        obtain ⟨he, hst⟩ := hv
        cases he
        exact ⟨hst.symm, Or.inr (Or.inr ⟨rfl, rfl, hlt⟩)⟩
    · rw [verify_eq_notCaller keccak recover now st pallet_name token_id data
        with_ethereum txh hh hrec hpk] at hv
      simp only [Option.some_inj, Prod.mk.injEq] at hv
      obtain ⟨he, hst⟩ := hv
      cases he
      exact ⟨hst.symm, Or.inr (Or.inl ⟨pk, rfl, rfl, hpk⟩)⟩

theorem verify_eq_none_hash
    (hh : get_transaction_hash keccak data with_ethereum = none) :
    verify_transaction keccak recover now st pallet_name token_id data with_ethereum
      = none := by
  simp [verify_transaction, hh]

theorem verify_state_shape {r : Except VerifyError VerifyResult} {st' : OmniState}
    (hv : verify_transaction keccak recover now st pallet_name token_id data with_ethereum
      = some (r, st')) :
    (st'.transactionRecorder = st.transactionRecorder ∧
      st'.transactionCount = st.transactionCount) ∨
    (st'.transactionRecorder
        = fupdate st.transactionRecorder (data.fromPk, pallet_name, token_id, data.nonce)
            (some ⟨data, now⟩) ∧
      st'.transactionCount
        = fupdate st.transactionCount (data.fromPk, pallet_name, token_id)
            ((data.nonce + 1) % 2 ^ 128) ∧
      st.transactionCount (data.fromPk, pallet_name, token_id) = data.nonce) := by
  cases h1 : get_transaction_hash keccak data with_ethereum with
  | none =>
    rw [verify_eq_none_hash keccak recover now st pallet_name token_id data
      with_ethereum h1] at hv
    cases hv
  | some txh =>
    cases h2 : recover data.signature txh with
    | none =>
      rw [verify_eq_sigErr keccak recover now st pallet_name token_id data
        with_ethereum txh h1 h2] at hv
      simp only [Option.some_inj, Prod.mk.injEq] at hv
      exact Or.inl (by rw [← hv.2]; exact ⟨rfl, rfl⟩)
    | some pk =>
      by_cases hpk : pk = data.fromPk
      · subst hpk
        rcases Nat.lt_trichotomy data.nonce
            (st.transactionCount (data.fromPk, pallet_name, token_id)) with hgt | heq | hlt
        · cases h3 : st.transactionRecorder
              (data.fromPk, pallet_name, token_id, data.nonce) with
          | none =>
            rw [verify_eq_none_lookup keccak recover now st pallet_name token_id data
              with_ethereum txh h1 h2 hgt h3] at hv
            cases hv
          | some his_tx =>
            cases h4 : get_transaction_hash keccak his_tx.tx_data with_ethereum with
            | none =>
              rw [verify_eq_none_hisHash keccak recover now st pallet_name token_id data
                with_ethereum txh h1 h2 hgt h3 h4] at hv
              cases hv
            | some hish =>
              by_cases h5 : hish = txh
              · subst h5
                rw [verify_eq_dup keccak recover now st pallet_name token_id data
                  with_ethereum hish h1 h2 hgt h3 h4] at hv
                simp only [Option.some_inj, Prod.mk.injEq] at hv
                exact Or.inl (by rw [← hv.2]; exact ⟨rfl, rfl⟩)
              · rw [verify_eq_malicious keccak recover now st pallet_name token_id data
                  with_ethereum txh h1 h2 hgt h3 h4 h5] at hv
                simp only [Option.some_inj, Prod.mk.injEq] at hv
                exact Or.inl (by rw [← hv.2]; exact ⟨rfl, rfl⟩)
        · rw [verify_eq_success keccak recover now st pallet_name token_id data
            with_ethereum txh h1 h2 heq.symm] at hv
          simp only [Option.some_inj, Prod.mk.injEq] at hv
          refine Or.inr ?_
          rw [← hv.2]
          exact ⟨rfl, rfl, heq.symm⟩
        · rw [verify_eq_nonceErr keccak recover now st pallet_name token_id data
            with_ethereum txh h1 h2 hlt] at hv
          simp only [Option.some_inj, Prod.mk.injEq] at hv
          exact Or.inl (by rw [← hv.2]; exact ⟨rfl, rfl⟩)
      · rw [verify_eq_notCaller keccak recover now st pallet_name token_id data
          with_ethereum txh h1 h2 hpk] at hv
        simp only [Option.some_inj, Prod.mk.injEq] at hv
        exact Or.inl (by rw [← hv.2]; exact ⟨rfl, rfl⟩)

end VerifyHelpers

theorem trigger_protocol_eq (handler : Bytes → OmniverseTransactionData → Bool)
    (now : Nat) (st : UniquesState) :
    (trigger_execution handler now st).2.protocol = st.protocol := by
  simp only [trigger_execution]
  split
  · split
    · rfl
    · split
      · rfl
      · split
        · split <;> rfl
        · rfl
  · rfl

/-! ### C5 — the byte layout hashed by `get_transaction_hash` -/

/-- C5: for every transaction whose payload decodes (so that its opcode,
operation bytes and amount exist), `hash(tx, false)` is Keccak-256 of
`nonce(16B BE) ‖ chain_id(4B BE) ‖ initiator_address ‖ from ‖ opcode(1B) ‖
ex_data ‖ amount(16B BE)` — the signature field is not hashed — and
`hash(tx, true)` is Keccak-256 of the ASCII prefix
`"\x19Ethereum Signed Message:\n"` followed by the decimal-ASCII length of
those raw bytes followed by the raw bytes. -/
theorem C5_transaction_hash_encoding (keccak : Bytes → Bytes)
    (data : OmniverseTransactionData) (fungible : Fungible)
    (hdec : fungibleDecode data.payload = some fungible) :
    ETHEREUM_PREFIX = [0x19, 0x45, 0x74, 0x68, 0x65, 0x72, 0x65, 0x75, 0x6d, 0x20,
      0x53, 0x69, 0x67, 0x6e, 0x65, 0x64, 0x20, 0x4d, 0x65, 0x73, 0x73, 0x61,
      0x67, 0x65, 0x3a, 0x0a] ∧
    get_transaction_hash keccak data false =
      some (keccak (toBE 16 data.nonce ++ toBE 4 data.chain_id
        ++ data.initiator_address ++ data.fromPk
        ++ ([fungible.op] ++ fungible.ex_data ++ toBE 16 fungible.amount))) ∧
    get_transaction_hash keccak data true =
      some (keccak (ETHEREUM_PREFIX
        ++ decimalAscii (toBE 16 data.nonce ++ toBE 4 data.chain_id
            ++ data.initiator_address ++ data.fromPk
            ++ ([fungible.op] ++ fungible.ex_data ++ toBE 16 fungible.amount)).length
        ++ (toBE 16 data.nonce ++ toBE 4 data.chain_id
            ++ data.initiator_address ++ data.fromPk
            ++ ([fungible.op] ++ fungible.ex_data ++ toBE 16 fungible.amount)))) := by
  refine ⟨by decide, ?_, ?_⟩ <;>
    simp [get_transaction_hash, hdec, List.append_assoc]

/-- Witness for C5 at the concrete transaction `wTx`. -/
theorem C5_transaction_hash_encoding_witness :
    get_transaction_hash keccakId wTx false =
      some (keccakId (toBE 16 wTx.nonce ++ toBE 4 wTx.chain_id
        ++ wTx.initiator_address ++ wTx.fromPk
        ++ ([(0 : Nat)] ++ ([] : Bytes) ++ toBE 16 0))) :=
  (C5_transaction_hash_encoding keccakId wTx ⟨0, [], 0⟩ (by rfl)).2.1

theorem submitSeq_all_success (keccak : Bytes → Bytes)
    (recover : Bytes → Bytes → Option Bytes) (now : Nat)
    (pallet_name token_id : Bytes) (txs : Nat → OmniverseTransactionData)
    (pk : Bytes) :
    ∀ (n : Nat) (st0 : OmniState),
      (∀ k, k < n → (txs k).fromPk = pk) →
      (∀ k, k < n → (txs k).nonce = k) →
      (∀ k, k < n → ∃ hh, get_transaction_hash keccak (txs k) false = some hh ∧
        recover (txs k).signature hh = some pk) →
      n < 2 ^ 128 →
      st0.transactionCount (pk, pallet_name, token_id) = 0 →
      ∃ stF, submitSeq keccak recover now pallet_name token_id txs n st0 = some stF ∧
        stF.transactionCount (pk, pallet_name, token_id) = n := by
  intro n
  induction n with
  | zero =>
    intro st0 _ _ _ _ h0
    exact ⟨st0, rfl, h0⟩
  | succ n ih =>
    intro st0 hfrom hnonce hsig hbound h0
    obtain ⟨stN, hrun, hcnt⟩ := ih st0
      (fun k hk => hfrom k (Nat.lt_succ_of_lt hk))
      (fun k hk => hnonce k (Nat.lt_succ_of_lt hk))
      (fun k hk => hsig k (Nat.lt_succ_of_lt hk))
      (Nat.lt_of_succ_lt hbound) h0
    obtain ⟨hh, hhash, hrec⟩ := hsig n (Nat.lt_succ_self n)
    have hf : (txs n).fromPk = pk := hfrom n (Nat.lt_succ_self n)
    have hcnt' : stN.transactionCount ((txs n).fromPk, pallet_name, token_id)
        = (txs n).nonce := by
      rw [hf, hnonce n (Nat.lt_succ_self n)]
      exact hcnt
    have hrec' : recover (txs n).signature hh = some (txs n).fromPk := by
      rw [hf]
      exact hrec
    have hstep := verify_eq_success keccak recover now stN pallet_name token_id (txs n)
      false hh hhash hrec' hcnt'
    refine ⟨{ stN with
        transactionRecorder :=
          fupdate stN.transactionRecorder ((txs n).fromPk, pallet_name, token_id, (txs n).nonce)
            (some ⟨txs n, now⟩)
        transactionCount :=
          fupdate stN.transactionCount ((txs n).fromPk, pallet_name, token_id)
            (((txs n).nonce + 1) % 2 ^ 128) }, ?_, ?_⟩
    · show submitSeq keccak recover now pallet_name token_id txs (n + 1) st0 = _
      simp only [submitSeq, hrun, hstep]
    · show (fupdate stN.transactionCount ((txs n).fromPk, pallet_name, token_id)
        (((txs n).nonce + 1) % 2 ^ 128)) (pk, pallet_name, token_id) = n + 1
      rw [hf, hnonce n (Nat.lt_succ_self n), fupdate_same]
      exact Nat.mod_eq_of_lt hbound

/-! ### C2 — sequential acceptance -/

/-- C2: when a correctly signed transaction arrives whose nonce equals the
stored counter, `verify_transaction` returns `Success`, stores a record
holding the transaction and the current wall-clock time under
`(from, namespace, nonce)`, and bumps the counter to `nonce + 1`; and
submitting correctly signed transactions with nonces `0, …, n` in order
from a fresh counter yields `Success` every time and leaves
`get_transaction_count = n + 1`. -/
theorem C2_success_and_sequential_acceptance (keccak : Bytes → Bytes)
    (recover : Bytes → Bytes → Option Bytes) (now : Nat)
    (pallet_name token_id : Bytes) :
    (∀ (st : OmniState) (data : OmniverseTransactionData) (with_ethereum : Bool)
        (txh : Bytes),
      get_transaction_hash keccak data with_ethereum = some txh →
      recover data.signature txh = some data.fromPk →
      st.transactionCount (data.fromPk, pallet_name, token_id) = data.nonce →
      data.nonce + 1 < 2 ^ 128 →
      ∃ st', verify_transaction keccak recover now st pallet_name token_id data
          with_ethereum = some (.ok .Success, st') ∧
        st'.transactionRecorder (data.fromPk, pallet_name, token_id, data.nonce)
          = some ⟨data, now⟩ ∧
        get_transaction_count st' data.fromPk pallet_name token_id = data.nonce + 1) ∧
    (∀ (txs : Nat → OmniverseTransactionData) (pk : Bytes) (n : Nat) (st0 : OmniState),
      (∀ k, k ≤ n → (txs k).fromPk = pk) →
      (∀ k, k ≤ n → (txs k).nonce = k) →
      (∀ k, k ≤ n → ∃ hh, get_transaction_hash keccak (txs k) false = some hh ∧
        recover (txs k).signature hh = some pk) →
      n + 1 < 2 ^ 128 →
      st0.transactionCount (pk, pallet_name, token_id) = 0 →
      ∃ stF, submitSeq keccak recover now pallet_name token_id txs (n + 1) st0 = some stF ∧
        get_transaction_count stF pk pallet_name token_id = n + 1) := by
  constructor
  · intro st data with_ethereum txh hh hrec hn hbound
    refine ⟨_, verify_eq_success keccak recover now st pallet_name token_id data
      with_ethereum txh hh hrec hn, ?_, ?_⟩
    · exact fupdate_same ..
    · show (fupdate st.transactionCount (data.fromPk, pallet_name, token_id)
        ((data.nonce + 1) % 2 ^ 128)) (data.fromPk, pallet_name, token_id) = _
      rw [fupdate_same]
      exact Nat.mod_eq_of_lt hbound
  · intro txs pk n st0 hfrom hnonce hsig hbound h0
    exact submitSeq_all_success keccak recover now pallet_name token_id txs pk (n + 1) st0
      (fun k hk => hfrom k (Nat.lt_succ_iff.mp hk))
      (fun k hk => hnonce k (Nat.lt_succ_iff.mp hk))
      (fun k hk => hsig k (Nat.lt_succ_iff.mp hk))
      hbound h0

/-- Witness for C2: one transaction (`wTx`, nonce 0) against the genesis
state: the run succeeds and the counter ends at 1. -/
theorem C2_success_and_sequential_acceptance_witness :
    ∃ stF, submitSeq keccakId recoverNil 5 [] [] (fun _ => wTx) 1 initialOmniState
        = some stF ∧
      get_transaction_count stF [] [] [] = 1 :=
  (C2_success_and_sequential_acceptance keccakId recoverNil 5 [] []).2
    (fun _ => wTx) [] 0 initialOmniState
    (fun _ _ => rfl) (fun k hk => by rw [Nat.le_zero.mp hk]; rfl)
    (fun _ _ => ⟨_, rfl, rfl⟩)
    (by norm_num) rfl

/-! ### C3 — the error cases of `verify_transaction` -/

/-- C3: given that the payload decodes (so hashing does not panic),
`verify_transaction` returns `Err` and leaves the state untouched in
exactly these cases: `SignatureError` when public-key recovery fails,
`SignerNotCaller` when the recovered key differs from the declared sender,
and `NonceError` when the nonce exceeds the expected counter; every `Err`
result carries the unmodified state. -/
theorem C3_verify_error_cases (keccak : Bytes → Bytes)
    (recover : Bytes → Bytes → Option Bytes) (now : Nat) (st : OmniState)
    (pallet_name token_id : Bytes) (data : OmniverseTransactionData)
    (with_ethereum : Bool) (txh : Bytes)
    (hh : get_transaction_hash keccak data with_ethereum = some txh) :
    (verify_transaction keccak recover now st pallet_name token_id data with_ethereum
        = some (.error .SignatureError, st)
      ↔ recover data.signature txh = none) ∧
    (verify_transaction keccak recover now st pallet_name token_id data with_ethereum
        = some (.error .SignerNotCaller, st)
      ↔ ∃ pk, recover data.signature txh = some pk ∧ pk ≠ data.fromPk) ∧
    (verify_transaction keccak recover now st pallet_name token_id data with_ethereum
        = some (.error .NonceError, st)
      ↔ recover data.signature txh = some data.fromPk ∧
          st.transactionCount (data.fromPk, pallet_name, token_id) < data.nonce) ∧
    (∀ e st', verify_transaction keccak recover now st pallet_name token_id data with_ethereum
        = some (.error e, st') → st' = st) := by
  refine ⟨⟨?_, ?_⟩, ⟨?_, ?_⟩, ⟨?_, ?_⟩, ?_⟩
  · intro hv
    rcases (verify_error_characterization keccak recover now st pallet_name token_id data
        with_ethereum txh hh _ _ hv).2 with ⟨_, h⟩ | ⟨pk, he, _⟩ | ⟨he, _⟩
    · exact h
    · cases he
    · cases he
  · intro hrec
    exact verify_eq_sigErr keccak recover now st pallet_name token_id data with_ethereum
      txh hh hrec
  · intro hv
    rcases (verify_error_characterization keccak recover now st pallet_name token_id data
        with_ethereum txh hh _ _ hv).2 with ⟨he, _⟩ | ⟨pk, _, h1, h2⟩ | ⟨he, _⟩
    · cases he
    · exact ⟨pk, h1, h2⟩
    · cases he
  · intro ⟨pk, h1, h2⟩
    exact verify_eq_notCaller keccak recover now st pallet_name token_id data with_ethereum
      txh hh h1 h2
  · intro hv
    rcases (verify_error_characterization keccak recover now st pallet_name token_id data
        with_ethereum txh hh _ _ hv).2 with ⟨he, _⟩ | ⟨pk, he, _⟩ | ⟨_, h1, h2⟩
    · cases he
    · cases he
    · exact ⟨h1, h2⟩
  · intro ⟨h1, h2⟩
    exact verify_eq_nonceErr keccak recover now st pallet_name token_id data with_ethereum
      txh hh h1 h2
  · intro e st' hv
    exact (verify_error_characterization keccak recover now st pallet_name token_id data
      with_ethereum txh hh e st' hv).1

/-- Witness for C3: with a recovery oracle that always fails, the concrete
transaction `wTx` is classified `SignatureError` against the genesis state,
which is returned unchanged. -/
theorem C3_verify_error_cases_witness :
    verify_transaction keccakId (fun _ _ => none) 5 initialOmniState [] [] wTx false
      = some (.error .SignatureError, initialOmniState) :=
  (C3_verify_error_cases keccakId (fun _ _ => none) 5 initialOmniState [] [] wTx false
    (keccakId (toBE 16 0 ++ toBE 4 0 ++ [] ++ [] ++ ([0] ++ [] ++ toBE 16 0)))
    (by rfl)).1.mpr (by rfl)

section QueueHelpers

variable (handler : Bytes → OmniverseTransactionData → Bool) (now : Nat)
  (st : UniquesState)

theorem trigger_eq_notExecutable {dtx : DelayedTx} {otx : OmniverseTx}
    (hq : st.delayedIndex.1 < st.delayedIndex.2)
    (hdtx : st.delayedTransactions st.delayedIndex.1 = some dtx)
    (hotx : get_transaction_data st.protocol dtx.sender PALLET_NAME dtx.token_id dtx.nonce
      = some otx)
    (hcold : ¬ otx.timestamp + get_cooling_down_time < now) :
    trigger_execution handler now st = (.error .NotExecutable, st) := by
  simp [trigger_execution, hq, hdtx, hotx, hcold]

theorem trigger_eq_deliver {dtx : DelayedTx} {otx : OmniverseTx}
    (hq : st.delayedIndex.1 < st.delayedIndex.2)
    (hdtx : st.delayedTransactions st.delayedIndex.1 = some dtx)
    (hotx : get_transaction_data st.protocol dtx.sender PALLET_NAME dtx.token_id dtx.nonce
      = some otx)
    (hhot : otx.timestamp + get_cooling_down_time < now) :
    (trigger_execution handler now st).2
      = { st with
          delayedIndex := (st.delayedIndex.1 + 1, st.delayedIndex.2)
          handlerLog := st.handlerLog
            ++ [(st.delayedIndex.1, dtx.token_id, otx.tx_data)] } := by
  by_cases h5 : handler dtx.token_id otx.tx_data = true <;>
    simp [trigger_execution, hq, hdtx, hotx, hhot, h5]

theorem trigger_cases :
    (trigger_execution handler now st).2 = st ∨
    ∃ dtx otx, st.delayedIndex.1 < st.delayedIndex.2 ∧
      st.delayedTransactions st.delayedIndex.1 = some dtx ∧
      get_transaction_data st.protocol dtx.sender PALLET_NAME dtx.token_id dtx.nonce
        = some otx ∧
      otx.timestamp + get_cooling_down_time < now ∧
      (trigger_execution handler now st).2
        = { st with
            delayedIndex := (st.delayedIndex.1 + 1, st.delayedIndex.2)
            handlerLog := st.handlerLog
              ++ [(st.delayedIndex.1, dtx.token_id, otx.tx_data)] } := by
  by_cases h1 : st.delayedIndex.1 < st.delayedIndex.2
  · cases h2 : st.delayedTransactions st.delayedIndex.1 with
    | none => exact Or.inl (by simp [trigger_execution, h1, h2])
    | some dtx =>
      cases h3 : get_transaction_data st.protocol dtx.sender PALLET_NAME dtx.token_id
          dtx.nonce with
      | none => exact Or.inl (by simp [trigger_execution, h1, h2, h3])
      | some otx =>
        by_cases h4 : otx.timestamp + get_cooling_down_time < now
        · exact Or.inr ⟨dtx, otx, h1, rfl, h3, h4,
            trigger_eq_deliver handler now st h1 h2 h3 h4⟩
        · exact Or.inl (by
            rw [trigger_eq_notExecutable handler now st h1 h2 h3 h4])
  · exact Or.inl (by simp [trigger_execution, h1])

theorem trigger_queueInv (hQ : QueueInv st) :
    QueueInv (trigger_execution handler now st).2 := by
  rcases trigger_cases handler now st with heq | ⟨dtx, otx, _, _, _, _, heq⟩
  · rw [heq]; exact hQ
  · rw [heq]
    constructor
    · rw [List.pairwise_append]
      refine ⟨hQ.1, List.pairwise_singleton .., ?_⟩
      intro a ha b hb
      rw [List.mem_singleton.mp hb]
      exact hQ.2 a ha
    · intro e he
      rcases List.mem_append.mp he with h | h
      · exact Nat.lt_succ_of_lt (hQ.2 e h)
      · rw [List.mem_singleton.mp h]
        exact Nat.lt_succ_self _
end QueueHelpers

theorem trigger_many_queueInv (handler : Bytes → OmniverseTransactionData → Bool)
    (ts : List Nat) (st : UniquesState) (hQ : QueueInv st) :
    QueueInv (trigger_many handler ts st) := by
  induction ts generalizing st with
  | nil => exact hQ
  | cons t ts ih => exact ih _ (trigger_queueInv handler t st hQ)

theorem trigger_exec_mono (handler : Bytes → OmniverseTransactionData → Bool)
    (now : Nat) (st : UniquesState) :
    st.delayedIndex.1 ≤ (trigger_execution handler now st).2.delayedIndex.1 := by
  rcases trigger_cases handler now st with heq | ⟨_, _, _, _, _, _, heq⟩
  · rw [heq]
  · rw [heq]
    exact Nat.le_succ _

theorem trigger_many_count (handler : Bytes → OmniverseTransactionData → Bool)
    (ts : List Nat) (st : UniquesState) (i : Nat) (hQ : QueueInv st)
    (hi : i < st.delayedIndex.1) :
    (trigger_many handler ts st).handlerLog.countP (fun e => e.1 = i)
      = st.handlerLog.countP (fun e => e.1 = i) := by
  induction ts generalizing st with
  | nil => rfl
  | cons t ts ih =>
    have hstep : (trigger_execution handler t st).2.handlerLog.countP (fun e => e.1 = i)
        = st.handlerLog.countP (fun e => e.1 = i) := by
      rcases trigger_cases handler t st with heq | ⟨dtx, otx, _, _, _, _, heq⟩ <;> rw [heq]
      rw [List.countP_append]
      have : ((st.delayedIndex.1, dtx.token_id, otx.tx_data) : Nat × Bytes ×
          OmniverseTransactionData).1 = i → False := fun h => absurd h (by omega)
      simp only [List.countP_cons, List.countP_nil]
      have hne : ¬ st.delayedIndex.1 = i := by omega
      simp [hne]
    calc (trigger_many handler (t :: ts) st).handlerLog.countP (fun e => e.1 = i)
        = (trigger_execution handler t st).2.handlerLog.countP (fun e => e.1 = i) := by
          exact ih _ (trigger_queueInv handler t st hQ)
            (Nat.lt_of_lt_of_le hi (trigger_exec_mono handler t st))
      _ = st.handlerLog.countP (fun e => e.1 = i) := hstep

theorem countP_fst_le_one {α : Type} (i : Nat) (l : List (Nat × α))
    (hp : l.Pairwise (fun a b => a.1 < b.1)) :
    l.countP (fun e => e.1 = i) ≤ 1 := by
  induction l with
  | nil => simp
  | cons a t ih =>
    rw [List.countP_cons]
    rcases List.pairwise_cons.mp hp with ⟨ha, ht⟩
    by_cases hai : a.1 = i
    · have h0 : t.countP (fun e => e.1 = i) = 0 := by
        rw [List.countP_eq_zero]
        intro b hb
        have := ha b hb
        simp only [decide_eq_true_eq]
        omega
      simp [h0, hai]
    · have := ih ht
      simp only [hai]
      simpa [hai] using this

/-! ### C9 — the committed-nonce invariant -/

/-- C9: the genesis state satisfies the committed-nonce invariant (every
nonce below a counter has a stored record), both `verify_transaction` and
`trigger_execution` preserve it, and under it the historical-nonce branch's
record lookup always succeeds — the `unwrap` panic branch is unreachable. -/
theorem C9_nonce_invariant :
    NonceInv initialOmniState ∧
    (∀ (keccak : Bytes → Bytes) (recover : Bytes → Bytes → Option Bytes) (now : Nat)
        (st : OmniState) (pallet_name token_id : Bytes)
        (data : OmniverseTransactionData) (with_ethereum : Bool)
        (r : Except VerifyError VerifyResult) (st' : OmniState),
      NonceInv st →
      verify_transaction keccak recover now st pallet_name token_id data with_ethereum
        = some (r, st') →
      NonceInv st') ∧
    (∀ (handler : Bytes → OmniverseTransactionData → Bool) (now : Nat)
        (st : UniquesState),
      NonceInv st.protocol → NonceInv (trigger_execution handler now st).2.protocol) ∧
    (∀ (st : OmniState) (pallet_name token_id : Bytes)
        (data : OmniverseTransactionData),
      NonceInv st →
      data.nonce < st.transactionCount (data.fromPk, pallet_name, token_id) →
      (st.transactionRecorder (data.fromPk, pallet_name, token_id, data.nonce)).isSome) := by
  refine ⟨?_, ?_, ?_, ?_⟩
  · intro pk pallet_name token_id n hn
    cases hn
  · intro keccak recover now st pallet_name token_id data with_ethereum r st' hInv hv
    rcases verify_state_shape keccak recover now st pallet_name token_id data
        with_ethereum hv with ⟨hrec, hcnt⟩ | ⟨hrec, hcnt, hkey⟩
    · intro pk pallet_name' token_id' n hn
      rw [hrec]
      rw [hcnt] at hn
      exact hInv pk pallet_name' token_id' n hn
    · intro pk pallet_name' token_id' n hn
      rw [hcnt] at hn
      rw [hrec]
      by_cases htrip : (pk, pallet_name', token_id') = (data.fromPk, pallet_name, token_id)
      · have h1 : pk = data.fromPk := congrArg Prod.fst htrip
        have h23 := congrArg Prod.snd htrip
        have h2 : pallet_name' = pallet_name := congrArg Prod.fst h23
        have h3 : token_id' = token_id := congrArg Prod.snd h23
        subst h1; subst h2; subst h3
        rw [fupdate_same] at hn
        have hn' : n < data.nonce + 1 :=
          Nat.lt_of_lt_of_le hn (Nat.mod_le (data.nonce + 1) (2 ^ 128))
        by_cases hnn : n = data.nonce
        · subst hnn
          rw [fupdate_same]
          rfl
        · rw [fupdate_other _ _ _ _ (by simp [hnn])]
          exact hInv data.fromPk pallet_name' token_id' n
            (by rw [hkey]; exact Nat.lt_of_le_of_ne (Nat.lt_succ_iff.mp hn') hnn)
      · have hne4 : (pk, pallet_name', token_id', n)
            ≠ (data.fromPk, pallet_name, token_id, data.nonce) := by
          simp only [ne_eq, Prod.mk.injEq] at htrip ⊢
          tauto
        rw [fupdate_other _ _ _ _ htrip] at hn
        rw [fupdate_other _ _ _ _ hne4]
        exact hInv pk pallet_name' token_id' n hn
  · intro handler now st hInv
    rw [trigger_protocol_eq]
    exact hInv
  · intro st pallet_name token_id data hInv hlt
    exact hInv data.fromPk pallet_name token_id data.nonce hlt

/-- Witness for C9: in the concrete state `wState` the invariant holds and
the historical lookup for `wTx'` (nonce 0, counter 1) succeeds. -/
theorem C9_nonce_invariant_witness :
    (wState.transactionRecorder (wTx'.fromPk, [], [], wTx'.nonce)).isSome := by
  have hInv : NonceInv wState := by
    intro pk pallet_name token_id n hn
    by_cases hk : (pk, pallet_name, token_id) = (([] : Bytes), ([] : Bytes), ([] : Bytes))
    · have h1 : pk = [] := congrArg Prod.fst hk
      have h23 := congrArg Prod.snd hk
      have h2 : pallet_name = [] := congrArg Prod.fst h23
      have h3 : token_id = [] := congrArg Prod.snd h23
      subst h1; subst h2; subst h3
      have hn0 : n = 0 := by
        simp only [wState, fupdate_same] at hn
        omega
      subst hn0
      simp [wState, fupdate_same]
    · exfalso
      simp only [wState, fupdate_other _ _ _ _ hk] at hn
      exact Nat.not_lt_zero n hn
  exact C9_nonce_invariant.2.2.2 wState [] [] wTx' hInv (by decide)

/-! ### C1 — historical nonces: inert resends and equivocation -/

/-- C1: for a correctly signed transaction whose nonce is below the
counter, with a record committed at that nonce: if the stored record's
recomputed hash equals the incoming hash the call returns `Duplicated`
with the state untouched; if the hashes differ it returns `Malicious`,
appends exactly one `EvilTxData` (the new submission, `his_nonce` = the
current counter) to the actor's evil list, leaves the committed record
store and the counters untouched, and `is_malicious` then holds. -/
theorem C1_duplicate_and_equivocation (keccak : Bytes → Bytes)
    (recover : Bytes → Bytes → Option Bytes) (now : Nat) (st : OmniState)
    (pallet_name token_id : Bytes) (data : OmniverseTransactionData)
    (with_ethereum : Bool) (txh hish : Bytes) (his_tx : OmniverseTx)
    (hh : get_transaction_hash keccak data with_ethereum = some txh)
    (hrec : recover data.signature txh = some data.fromPk)
    (hgt : data.nonce < st.transactionCount (data.fromPk, pallet_name, token_id))
    (hrecd : st.transactionRecorder (data.fromPk, pallet_name, token_id, data.nonce)
      = some his_tx)
    (hhish : get_transaction_hash keccak his_tx.tx_data with_ethereum = some hish) :
    (hish = txh →
      verify_transaction keccak recover now st pallet_name token_id data with_ethereum
        = some (.ok .Duplicated, st)) ∧
    (hish ≠ txh →
      ∃ st', verify_transaction keccak recover now st pallet_name token_id data
          with_ethereum = some (.ok .Malicious, st') ∧
        st'.evilRecorder data.fromPk
          = some ((st.evilRecorder data.fromPk).getD []
              ++ [⟨⟨data, now⟩,
                   st.transactionCount (data.fromPk, pallet_name, token_id)⟩]) ∧
        st'.transactionRecorder = st.transactionRecorder ∧
        st'.transactionCount = st.transactionCount ∧
        is_malicious st' data.fromPk = true) := by
  constructor
  · intro heq
    subst heq
    exact verify_eq_dup keccak recover now st pallet_name token_id data with_ethereum
      hish hh hrec hgt hrecd hhish
  · intro hne
    refine ⟨_, verify_eq_malicious keccak recover now st pallet_name token_id data
      with_ethereum txh hh hrec hgt hrecd hhish hne, ?_, rfl, rfl, ?_⟩
    · exact fupdate_same ..
    · simp [is_malicious, fupdate_same]

/-- Witness for C1 at a concrete equivocation: `wTx'` resubmits nonce 0
with a different payload against `wState`, which holds `wTx` at nonce 0. -/
theorem C1_duplicate_and_equivocation_witness :
    ∃ st', verify_transaction keccakId recoverNil 7 wState [] [] wTx' false
        = some (.ok .Malicious, st') ∧
      st'.evilRecorder [] = some ((wState.evilRecorder []).getD []
        ++ [⟨⟨wTx', 7⟩, wState.transactionCount ([], [], [])⟩]) ∧
      st'.transactionRecorder = wState.transactionRecorder ∧
      st'.transactionCount = wState.transactionCount ∧
      is_malicious st' [] = true :=
  (C1_duplicate_and_equivocation keccakId recoverNil 7 wState [] [] wTx' false
    (List.replicate 21 0 ++ 1 :: List.replicate 15 0) (List.replicate 37 0) ⟨wTx, 3⟩
    (by decide) (by decide) (by decide) (by decide) (by decide)).2 (by decide)

/-! ### C7 — totality of `get_transaction_hash` -/

/-- C7 counterexample: the claim says `get_transaction_hash` is total for
every payload byte string, but the Rust code `unwrap`s the SCALE decoding
of the payload as `Fungible`; the empty payload fails to decode, so the
function panics there (modelled by `none`). -/
theorem C7_counterexample :
    get_transaction_hash (fun _ => List.replicate 32 0) ⟨0, 0, [], [], [], [0]⟩ false
      = none := by
  rfl

/-- C7 as amended: `get_transaction_hash` is a pure function of the
transaction's authenticated fields that returns a 32-byte digest for every
transaction whose payload SCALE-decodes as `Fungible`; a payload that fails
to decode makes the `unwrap` panic. -/
theorem C7_hash_total_on_decodable_payload (keccak : Bytes → Bytes)
    (data : OmniverseTransactionData) (with_ethereum : Bool) (fungible : Fungible)
    (hk : ∀ l, (keccak l).length = 32)
    (hdec : fungibleDecode data.payload = some fungible) :
    ∃ d, get_transaction_hash keccak data with_ethereum = some d ∧ d.length = 32 := by
  cases with_ethereum <;>
    · unfold get_transaction_hash
      rw [hdec]
      exact ⟨_, rfl, hk _⟩

/-- Witness for C7 (amended) at the concrete transaction `wTx`. -/
theorem C7_hash_total_on_decodable_payload_witness :
    ∃ d, get_transaction_hash (fun _ => List.replicate 32 0) wTx true = some d ∧
      d.length = 32 :=
  C7_hash_total_on_decodable_payload (fun _ => List.replicate 32 0) wTx true
    ⟨0, [], 0⟩ (fun _ => by simp) (by rfl)

/-! ### C10 — the wallet-prefix retry in `handle_transaction` -/

/-- C10: in `handle_transaction`, the wallet-prefixed verification attempt
is performed exactly when the raw-encoding attempt returned `Err` — for any
`VerifyError`, including `NonceError` and `SignerNotCaller` — and in that
case the surfaced result is that of the second attempt; an `Ok` first
attempt is surfaced unchanged. -/
theorem C10_wallet_prefix_retry (keccak : Bytes → Bytes)
    (recover : Bytes → Bytes → Option Bytes) (now : Nat) (st : OmniState)
    (pallet_name token_id : Bytes) (data : OmniverseTransactionData) :
    (∀ e st1,
      verify_transaction keccak recover now st pallet_name token_id data false
        = some (.error e, st1) →
      handle_transaction_verify keccak recover now st pallet_name token_id data
        = verify_transaction keccak recover now st1 pallet_name token_id data true) ∧
    (∀ r st1,
      verify_transaction keccak recover now st pallet_name token_id data false
        = some (.ok r, st1) →
      handle_transaction_verify keccak recover now st pallet_name token_id data
        = some (.ok r, st1)) := by
  constructor
  · intro e st1 h
    simp [handle_transaction_verify, h]
  · intro r st1 h
    simp [handle_transaction_verify, h]

/-- Witness for C10: `recoverRejectRaw` fails on the raw digest of `wTx`,
so the raw attempt errors and the wallet-prefixed attempt's result is
surfaced. -/
theorem C10_wallet_prefix_retry_witness :
    handle_transaction_verify keccakId recoverRejectRaw 5 initialOmniState [] [] wTx
      = verify_transaction keccakId recoverRejectRaw 5 initialOmniState [] [] wTx true :=
  (C10_wallet_prefix_retry keccakId recoverRejectRaw 5 initialOmniState [] [] wTx).1
    .SignatureError initialOmniState (by rfl)

/-! ### C6 — at-most-once delivery to the Settlement Handler -/

/-- C6: whenever `trigger_execution` invokes the Settlement Handler (the
handler log grows), the delivered entry is the one at the executing cursor
and the resulting cursor is one past it — for every handler, in particular
for handlers that return an error, so a failed handler call leaves the
cursor advanced; and across any sequence of drains each queue index is
delivered to the handler at most once. -/
theorem C6_at_most_once_delivery :
    (∀ (handler : Bytes → OmniverseTransactionData → Bool) (now : Nat)
        (st : UniquesState),
      (trigger_execution handler now st).2.handlerLog ≠ st.handlerLog →
      ∃ dtx otx,
        st.delayedTransactions st.delayedIndex.1 = some dtx ∧
        get_transaction_data st.protocol dtx.sender PALLET_NAME dtx.token_id dtx.nonce
          = some otx ∧
        (trigger_execution handler now st).2.handlerLog
          = st.handlerLog ++ [(st.delayedIndex.1, dtx.token_id, otx.tx_data)] ∧
        (trigger_execution handler now st).2.delayedIndex.1 = st.delayedIndex.1 + 1) ∧
    (∀ (handler : Bytes → OmniverseTransactionData → Bool) (ts : List Nat)
        (st : UniquesState) (i : Nat),
      QueueInv st →
      (trigger_many handler ts st).handlerLog.countP (fun e => e.1 = i) ≤ 1) := by
  constructor
  · intro handler now st hne
    rcases trigger_cases handler now st with heq | ⟨dtx, otx, _, h2, h3, _, heq⟩
    · exact absurd (congrArg UniquesState.handlerLog heq) hne
    · exact ⟨dtx, otx, h2, h3, congrArg UniquesState.handlerLog heq,
        congrArg (fun q => q.delayedIndex.1) heq⟩
  · intro handler ts st i hQ
    exact countP_fst_le_one i _ (trigger_many_queueInv handler ts st hQ).1

/-- Witness for C6: draining the concrete state `wUState` grows the log,
and iterated drains deliver index 0 at most once. -/
theorem C6_at_most_once_delivery_witness :
    (∃ dtx otx,
      wUState.delayedTransactions wUState.delayedIndex.1 = some dtx ∧
      get_transaction_data wUState.protocol dtx.sender PALLET_NAME dtx.token_id dtx.nonce
        = some otx ∧
      (trigger_execution (fun _ _ => false) 20 wUState).2.handlerLog
        = wUState.handlerLog ++ [(wUState.delayedIndex.1, dtx.token_id, otx.tx_data)] ∧
      (trigger_execution (fun _ _ => false) 20 wUState).2.delayedIndex.1
        = wUState.delayedIndex.1 + 1) ∧
    (trigger_many (fun _ _ => false) [20, 20] wUState).handlerLog.countP
      (fun e => e.1 = 0) ≤ 1 :=
  ⟨C6_at_most_once_delivery.1 (fun _ _ => false) 20 wUState (by decide),
   C6_at_most_once_delivery.2 (fun _ _ => false) [20, 20] wUState 0
     ⟨List.Pairwise.nil, by intro e he; cases he⟩⟩

/-! ### C4 — the cooling-down gate -/

/-- C4: for a queued entry whose record was committed at `timestamp`,
draining at a time with `now - timestamp ≤ cooling_down_time` fails with
`NotExecutable` and changes nothing; draining once the delay has elapsed
hands the entry to the Settlement Handler exactly once — across all later
drains the entry's index is never delivered again. -/
theorem C4_cooling_down_gate (handler : Bytes → OmniverseTransactionData → Bool)
    (now : Nat) (st : UniquesState) (dtx : DelayedTx) (otx : OmniverseTx)
    (hq : st.delayedIndex.1 < st.delayedIndex.2)
    (hdtx : st.delayedTransactions st.delayedIndex.1 = some dtx)
    (hotx : get_transaction_data st.protocol dtx.sender PALLET_NAME dtx.token_id dtx.nonce
      = some otx) :
    (now - otx.timestamp ≤ get_cooling_down_time →
      trigger_execution handler now st = (.error .NotExecutable, st)) ∧
    (get_cooling_down_time < now - otx.timestamp →
      QueueInv st →
      (trigger_execution handler now st).2.handlerLog
        = st.handlerLog ++ [(st.delayedIndex.1, dtx.token_id, otx.tx_data)] ∧
      ∀ ts, (trigger_many handler ts
          (trigger_execution handler now st).2).handlerLog.countP
            (fun e => e.1 = st.delayedIndex.1) = 1) := by
  have hcd : get_cooling_down_time = 10 := rfl
  constructor
  · intro hcold
    refine trigger_eq_notExecutable handler now st hq hdtx hotx ?_
    rw [hcd] at hcold ⊢
    omega
  · intro hhot hQ
    have hhot' : otx.timestamp + get_cooling_down_time < now := by
      rw [hcd] at hhot ⊢
      omega
    have hdel := trigger_eq_deliver handler now st hq hdtx hotx hhot'
    refine ⟨congrArg UniquesState.handlerLog hdel, ?_⟩
    intro ts
    have hQ' : QueueInv (trigger_execution handler now st).2 :=
      trigger_queueInv handler now st hQ
    have hidx : st.delayedIndex.1 < (trigger_execution handler now st).2.delayedIndex.1 := by
      rw [hdel]
      exact Nat.lt_succ_self _
    rw [trigger_many_count handler ts _ _ hQ' hidx]
    rw [hdel]
    rw [List.countP_append]
    have h0 : st.handlerLog.countP
        (fun e => e.1 = st.delayedIndex.1) = 0 := by
      rw [List.countP_eq_zero]
      intro e he
      have := hQ.2 e he
      simp only [decide_eq_true_eq]
      omega
    simp [h0]

/-- Witness for C4 at the concrete state `wUState` (record committed at
time 3, cooling-down 10): draining at `now = 13` is `NotExecutable`;
draining at `now = 20` delivers index 0 exactly once even after a further
drain. -/
theorem C4_cooling_down_gate_witness :
    trigger_execution (fun _ _ => true) 13 wUState
      = (.error .NotExecutable, wUState) ∧
    (trigger_many (fun _ _ => true) [20]
        (trigger_execution (fun _ _ => true) 20 wUState).2).handlerLog.countP
      (fun e => e.1 = 0) = 1 :=
  ⟨(C4_cooling_down_gate (fun _ _ => true) 13 wUState ⟨[], [], 0⟩ ⟨wTx, 3⟩
      (by decide) (by decide) (by decide)).1 (by decide),
   ((C4_cooling_down_gate (fun _ _ => true) 20 wUState ⟨[], [], 0⟩ ⟨wTx, 3⟩
      (by decide) (by decide) (by decide)).2 (by decide)
      ⟨List.Pairwise.nil, by intro e he; cases he⟩).2 [20]⟩

/-! ### C8 — no `executed` flag on transaction records -/

/-- C8 (code evaluated at the failing input, and the general fact): a
successful drain of the concrete state `wUState` completes with `Ok` yet
leaves the stored transaction record exactly as it was, and in general
`trigger_execution` never modifies the `TransactionRecorder` store — the
source `OmniverseTx` consists of `tx_data` and `timestamp` only, so no
`executed` flag exists or is flipped at drain time. -/
theorem C8_drain_leaves_records_unchanged :
    (trigger_execution (fun _ _ => true) 20 wUState).1 = .ok () ∧
    (trigger_execution (fun _ _ => true) 20 wUState).2.protocol.transactionRecorder
      ([], PALLET_NAME, [], 0) = some ⟨wTx, 3⟩ ∧
    (∀ (handler : Bytes → OmniverseTransactionData → Bool) (now : Nat)
        (st : UniquesState),
      (trigger_execution handler now st).2.protocol.transactionRecorder
        = st.protocol.transactionRecorder) :=
  ⟨rfl, by decide,
   fun handler now st =>
     congrArg OmniState.transactionRecorder (trigger_protocol_eq handler now st)⟩

end OmniverseSwap
